import Mathlib

/-!
Verification of the edm_store tiling / windowed-I/O engine.

This file is a shallow embedding, over exact rational arithmetic, of the
geometry core of the repository:

* `edm_store/dm/raster/_global_tile.py` — `_cal_tile_start_index`,
  `_rounding`, `_normalized_read_and_fill_info`, class `GlobalTileInfo`
  (constructor, `factors`, `resize`, `writeable`, `_get_x`/`_get_y`,
  `get_tile_info`, `calculate_read_window_of_sliced_band`,
  `rebuild_transform_to_target_crs`, `calculate_read_window_of_unsliced_band`);
* `edm_store/dm/raster/_band.py` — the guard and planning logic of
  `SlicedBand.read_region`, `SlicedBand.write_tile`,
  `SlicedBand.write_region` and `UnSlicedBand.read_region`;
* `edm_store/utils/cache.py` — class `Cache` (`_delete`, `_delete_expired`,
  `_evict`, `_set`, `_get`).

Python floats are modelled as `ℚ` (idealised exact arithmetic), Python ints
as `ℤ`.  `int(x)` is truncation toward zero (`pyInt`), `math.ceil` is `⌈·⌉`,
float `%` is `pyMod`, and Python's `round` (round half to even) is
`pyRound`.  External collaborators (GDAL reprojection, the CRS-equality
oracle, the storage backend, numpy pixel buffers) enter as explicit
parameters: the reprojected envelope of `GeometryGenerator(...).transform`
is a function argument `envF`, `is_same_crs` is a `Bool` argument, backend
uploads are an oracle `ℤ → ℤ → TileBlob → Bool`, and arrays are carried as
shapes (their pixel contents never influence control flow in the embedded
claims).  Fallible Python code (IndexError, unpacking `None`, negative
numpy dimensions, `raise ValueError`) is embedded with explicit error
constructors.
-/

namespace EdmStore

/-! ### Python numeric primitives over `ℚ` -/

/-- Python `int(x)` on a float: truncation toward zero. -/
def pyInt (q : ℚ) : ℤ := if 0 ≤ q then ⌊q⌋ else ⌈q⌉

/-- Python float `%`: `a % b = a - b * floor (a / b)`. -/
def pyMod (a b : ℚ) : ℚ := a - b * ⌊a / b⌋

/-- The decimal digit of `|q|` just past position `n` after the point,
exactly what `str(num).split('.')[1][n]` inspects in `_rounding`
(idealised to the exact decimal expansion of the rational value). -/
def fracDigit (q : ℚ) (n : ℕ) : ℤ := ⌊|q| * 10 ^ (n + 1)⌋ % 10

/-- Python `round` to an integer: round half to even. -/
def pyRound (q : ℚ) : ℤ :=
  if Int.fract q < 1 / 2 then ⌊q⌋
  else if 1 / 2 < Int.fract q then ⌊q⌋ + 1
  else if ⌊q⌋ % 2 = 0 then ⌊q⌋ else ⌊q⌋ + 1

/-- The pre-rounding adjustment of `_rounding`: when the decimal digit just
past the precision is `5`, add one unit in the next decimal place. -/
def bump (num : ℚ) (n : ℕ) : ℚ :=
  if fracDigit num n = 5 then num + 1 / 10 ^ (n + 1) else num

/-- `_rounding(num, n)` from `_global_tile.py`: bump `.5` digits up, then
round (to an integer when `n = 0`, to `n` decimal places otherwise). -/
def rounding (num : ℚ) (n : ℕ) : ℚ :=
  if n = 0 then (pyRound (bump num n) : ℚ)
  else (pyRound (bump num n * 10 ^ n) : ℚ) / 10 ^ n

/-- `_rounding(num)` at the default precision `n = 0`, which is how every
planner call site uses it; the Python result is an `int`. -/
def roundI (num : ℚ) : ℤ := pyRound (bump num 0)

/-! ### Rectangles and `_normalized_read_and_fill_info` -/

/-- A `(x0, x1, y0, y1)` window tuple as the planners emit it.  At every
call site of `_normalized_read_and_fill_info` the components are Python
ints (`_rounding` at precision 0 returns an int), so the fields are `ℤ`
and the `int(...)` casts inside the source function are identities. -/
structure Rect where
  x0 : ℤ
  x1 : ℤ
  y0 : ℤ
  y1 : ℤ
deriving DecidableEq

/-- `_normalized_read_and_fill_info`: if the read window and the fill
window disagree in width (resp. height), enlarge the read window when it
is smaller and the fill window otherwise. -/
def normalizedReadAndFillInfo (readInfo fillInfo : Rect) : Rect × Rect :=
  let xs := readInfo.x1 - readInfo.x0 - fillInfo.x1 + fillInfo.x0
  let r1 := if xs < 0 then { readInfo with x1 := readInfo.x1 - xs } else readInfo
  let f1 := if 0 < xs then { fillInfo with x1 := fillInfo.x1 + xs } else fillInfo
  let ys := r1.y1 - r1.y0 - f1.y1 + f1.y0
  let r2 := if ys < 0 then { r1 with y1 := r1.y1 - ys } else r1
  let f2 := if 0 < ys then { f1 with y1 := f1.y1 + ys } else f1
  (r2, f2)

/-! ### The global tile lattice -/

/-- A GDAL-style affine transform `(c0, c1, c2, c3, c4, c5)`:
pixel `(i, j)` maps to `(c0 + c1 * i, c3 + c5 * j)`. -/
structure Transform where
  c0 : ℚ
  c1 : ℚ
  c2 : ℚ
  c3 : ℚ
  c4 : ℚ
  c5 : ℚ
deriving DecidableEq

/-- `_cal_tile_start_index(l_point, ori_point, tile_size, scala)`. -/
def calTileStartIndex (lPoint oriPoint tileSize scala : ℚ) : ℤ :=
  if 0 < scala then
    let ds := (lPoint - oriPoint) / |tileSize * scala|
    if ds < 0 then -⌈|ds|⌉ else pyInt |ds|
  else
    let ds := (lPoint - oriPoint) / |tileSize * scala|
    Neg.neg ⌈ds⌉

/-- The `while base > 256` body of `GlobalTileInfo.factors`, collecting the
successive `cur` values `2, 4, 8, …`.  The fuel argument is the explicit
termination measure `⌈base⌉.toNat`; `facLoopF_fuel_irrelevant` below shows
any sufficient fuel computes the same list, so the wrapper `facLoop`
is exactly the source loop. -/
def facLoopF : ℕ → ℚ → ℤ → List ℤ
  | 0, _, _ => []
  | n + 1, base, cur => if 256 < base then cur :: facLoopF n (base / 2) (cur * 2) else []

/-- The `factors` loop of `GlobalTileInfo` (list of appended `cur` values). -/
def facLoop (base : ℚ) (cur : ℤ) : List ℤ := facLoopF ⌈base⌉.toNat base cur

/-- State of a `GlobalTileInfo` object.  Field names follow the Python
attributes.  `tileXStart`/`tileYStart` are the values after the
constructor's final `self.tileXStart, self.tileYStart = 0, 0`. -/
structure GlobalTileInfo where
  oriX : ℚ
  oriY : ℚ
  tileSize : ℤ
  lx : ℚ
  scalaX : ℚ
  ly : ℚ
  scalaY : ℚ
  xSize : ℤ
  ySize : ℤ
  rx : ℚ
  ry : ℚ
  deviationX : ℚ
  deviationY : ℚ
  tileXStart : ℤ
  tileYStart : ℤ
  firstTileLeftX : ℚ
  firstTileLeftY : ℚ
  rangeX : ℤ
  rangeY : ℤ
  tileXEnd : ℤ
  tileYEnd : ℤ
  reSizeXEnd : ℚ
  reSizeYEnd : ℚ
  reSize : ℤ
  factors : List ℤ
  scalaXList : List ℚ
  scalaYList : List ℚ
  tileSizeList : List ℤ
deriving DecidableEq

/-- `GlobalTileInfo.__init__` with the default (synthesised) pyramid
factors.  No caller in the repository passes explicit `factors`, so only
the `factors is None` branch is embedded. -/
def mkGlobalTileInfo (transform : Transform) (xSize ySize : ℤ) (tileSize : ℤ)
    (hasPyramid : Bool) : GlobalTileInfo :=
  let lx := transform.c0
  let scalaX := transform.c1
  let ly := transform.c3
  let scalaY := transform.c5
  let rx := lx + xSize * scalaX
  let ry := ly + ySize * scalaY
  let deviationX := pyMod lx scalaX
  let deviationY := pyMod ly |scalaY|
  let oriX := 0 + deviationX
  let oriY := 0 + deviationY
  let tileXStart0 := calTileStartIndex lx oriX tileSize scalaX
  let tileYStart0 := calTileStartIndex ly oriY tileSize scalaY
  let firstTileLeftX := oriX + tileXStart0 * ((tileSize : ℚ) * scalaX)
  let firstTileLeftY := oriY + tileYStart0 * ((tileSize : ℚ) * scalaY)
  let rangeX := ⌈(rx - firstTileLeftX) / ((tileSize : ℚ) * scalaX)⌉
  let rangeY := ⌈(ry - firstTileLeftY) / ((tileSize : ℚ) * scalaY)⌉
  let tileXEnd := rangeX - 1
  let tileYEnd := rangeY - 1
  let base := (max ((tileSize : ℚ) * rangeX) ((tileSize : ℚ) * rangeY)) / 2
  let curs := if hasPyramid then facLoop base 2 else []
  { oriX := oriX
    oriY := oriY
    tileSize := tileSize
    lx := lx
    scalaX := scalaX
    ly := ly
    scalaY := scalaY
    xSize := xSize
    ySize := ySize
    rx := rx
    ry := ry
    deviationX := deviationX
    deviationY := deviationY
    tileXStart := 0
    tileYStart := 0
    firstTileLeftX := firstTileLeftX
    firstTileLeftY := firstTileLeftY
    rangeX := rangeX
    rangeY := rangeY
    tileXEnd := tileXEnd
    tileYEnd := tileYEnd
    reSizeXEnd := (tileXEnd : ℚ)
    reSizeYEnd := (tileYEnd : ℚ)
    reSize := tileSize
    factors := 1 :: curs
    scalaXList := scalaX :: curs.map (fun c => scalaX * (c : ℚ))
    scalaYList := scalaY :: curs.map (fun c => scalaY * (c : ℚ))
    tileSizeList := tileSize :: curs.map (fun c => pyInt ((tileSize : ℚ) / (c : ℚ))) }

/-- `GlobalTileInfo.resize`.  The source assigns `self.reSize = tileSize`,
computes `times = self.tileSize / self.reSize` and raises `ValueError`
when `times < 1`; a zero requested size raises `ZeroDivisionError`.  No
divisibility check is performed. -/
def GlobalTileInfo.resize (g : GlobalTileInfo) (tileSize : ℤ) :
    Except String GlobalTileInfo :=
  if tileSize = 0 then Except.error "ZeroDivisionError"
  else
    let g1 := { g with reSize := tileSize }
    let times : ℚ := (g1.tileSize : ℚ) / (tileSize : ℚ)
    if times < 1 then Except.error "The current dataset does not support reading at the current tile size"
    else
      let reSizeXEnd := ((g1.tileXEnd : ℚ) + 1) * times - 1
      let reSizeYEnd := ((g1.tileYEnd : ℚ) + 1) * times - 1
      Except.ok { g1 with
        reSizeXEnd := reSizeXEnd
        reSizeYEnd := reSizeYEnd
        rangeX := pyInt (reSizeXEnd + 1)
        rangeY := pyInt (reSizeYEnd + 1) }

/-- `GlobalTileInfo.writeable`. -/
def GlobalTileInfo.writeable (g : GlobalTileInfo) : Bool := g.tileSize == g.reSize

/-- `GlobalTileInfo._get_x`. -/
def GlobalTileInfo.getX (g : GlobalTileInfo) (x : ℤ) : ℚ :=
  g.firstTileLeftX + x * g.scalaX * g.tileSize

/-- `GlobalTileInfo._get_y`. -/
def GlobalTileInfo.getY (g : GlobalTileInfo) (y : ℤ) : ℚ :=
  g.firstTileLeftY + y * g.scalaY * g.tileSize

/-- `GlobalTileInfo.get_tile_info`. -/
def GlobalTileInfo.getTileInfo (g : GlobalTileInfo) (x y : ℤ) :
    Transform × (ℤ × ℤ) :=
  (⟨g.firstTileLeftX + x * g.reSize * g.scalaX, g.scalaX, 0,
    g.firstTileLeftY + y * g.reSize * g.scalaY, 0, g.scalaY⟩,
   (g.reSize, g.reSize))

/-! ### The sliced-band window planner -/

/-- Result of `calculate_read_window_of_sliced_band`: `err` models the
IndexError of `self.tileSizeList[zoom]` on an out-of-range level, `none`
the `return None` of the (intended) empty-intersection branch, and `plan`
the `(windows_result_list, actual_transform, actual_shape)` tuple. -/
inductive SlicedPlan where
  | err
  | none
  | plan (entries : List ((ℤ × ℤ) × Rect × Rect)) (actualTransform : Transform)
      (actualShape : ℤ × ℤ)
deriving DecidableEq

/-- `range(a, b + 1)` over integers. -/
def intRange (a b : ℤ) : List ℤ := (List.range (b + 1 - a).toNat).map (fun k => a + k)

/-- One axis of the per-tile window computation inside the double loop of
`calculate_read_window_of_sliced_band`; returns
`(read0, read1, fill0, fill1)` for loop index `x`, with the sequential
re-assignments of the first/last tile special cases. -/
def axisParts (T s e sOff eOff : ℤ) (x : ℤ) : ℤ × ℤ × ℤ × ℤ :=
  let read0 := (0 : ℤ)
  let read1 := T - 1
  let fill0 := (x - s) * T - sOff
  let fill1 := fill0 + T - 1
  let read0 := if x = s then sOff else read0
  let fill0 := if x = s then 0 else fill0
  let read1 := if x = e then eOff - 1 else read1
  let fill1 := if x = e then fill0 + read1 - read0 else fill1
  (read0, read1, fill0, fill1)

/-- One entry `((x, y), read_info, fill_info)` of the plan. -/
def slicedEntry (T sIx eIx sIy eIy sOffX sOffY eOffX eOffY x y : ℤ) :
    (ℤ × ℤ) × Rect × Rect :=
  let px := axisParts T sIx eIx sOffX eOffX x
  let py := axisParts T sIy eIy sOffY eOffY y
  let rf := normalizedReadAndFillInfo
    ⟨roundI (px.1 : ℚ), roundI (px.2.1 : ℚ), roundI (py.1 : ℚ), roundI (py.2.1 : ℚ)⟩
    ⟨roundI (px.2.2.1 : ℚ), roundI (px.2.2.2 : ℚ), roundI (py.2.2.1 : ℚ),
     roundI (py.2.2.2 : ℚ)⟩
  ((x, y), rf.1, rf.2)

/-- The double loop of `calculate_read_window_of_sliced_band` (x outer,
y inner, matching the Python append order). -/
def slicedEntries (T sIx eIx sIy eIy sOffX sOffY eOffX eOffY : ℤ) :
    List ((ℤ × ℤ) × Rect × Rect) :=
  (intRange sIx eIx).flatMap fun x =>
    (intRange sIy eIy).map fun y =>
      slicedEntry T sIx eIx sIy eIy sOffX sOffY eOffX eOffY x y

/-- Body of `calculate_read_window_of_sliced_band` once the pyramid lists
have been indexed successfully at level `zoom` (values `cT`, `cSx`, `cSy`). -/
def calcSlicedCore (g : GlobalTileInfo) (t : Transform) (xSize ySize : ℤ)
    (cT : ℤ) (cSx cSy : ℚ) : SlicedPlan :=
  let readLx := t.c0
  let readTy := t.c3
  let readRx := t.c0 + t.c1 * xSize
  let readBy := t.c3 + t.c5 * ySize
  let oriLx := g.firstTileLeftX
  let oriRx := oriLx + g.reSize * g.rangeX * g.scalaX
  let oriTy := g.firstTileLeftY
  let oriBy := oriTy + g.reSize * g.rangeY * g.scalaY
  -- the Python test `not max(..) < min(..) and min(..) > max(..)`:
  -- `not` binds tighter than `and`
  if ¬(max readLx oriLx < min readRx oriRx) ∧ max readBy oriBy < min readTy oriTy then
    SlicedPlan.none
  else
    let sIx := pyInt ((readLx - oriLx) / ((cT : ℚ) * cSx))
    let sIy := pyInt ((readTy - oriTy) / ((cT : ℚ) * cSy))
    let eIx := ⌈(readRx - oriLx) / ((cT : ℚ) * cSx)⌉ - 1
    let eIy := ⌈(readBy - oriTy) / ((cT : ℚ) * cSy)⌉ - 1
    let sOffX := pyInt |(readLx - g.getX sIx) / cSx|
    let sOffY := pyInt |(readTy - g.getY sIy) / cSy|
    let eOffX := ⌈|(readRx - g.getX eIx) / cSx|⌉
    let eOffY := ⌈|(readBy - g.getY eIy) / cSy|⌉
    let actualTransform : Transform :=
      ⟨g.getX sIx + sOffX * cSx, cSx, 0, g.getY sIy + sOffY * cSy, 0, cSy⟩
    let actualShape : ℤ × ℤ :=
      ((eIy - sIy) * cT - sOffY + eOffY, (eIx - sIx) * cT - sOffX + eOffX)
    SlicedPlan.plan (slicedEntries cT sIx eIx sIy eIy sOffX sOffY eOffX eOffY)
      actualTransform actualShape

/-- `GlobalTileInfo.calculate_read_window_of_sliced_band`. -/
def calcSliced (g : GlobalTileInfo) (t : Transform) (xSize ySize : ℤ)
    (zoom : ℕ) : SlicedPlan :=
  match g.tileSizeList.get? zoom, g.scalaXList.get? zoom, g.scalaYList.get? zoom with
  | some cT, some cSx, some cSy => calcSlicedCore g t xSize ySize cT cSx cSy
  | _, _, _ => SlicedPlan.err

/-! ### Pyramid-level selection and `rebuild_transform_to_target_crs` -/

/-- The scan `for i, v in enumerate(self.scalaXList): if sx >= v: zoom = i
else: break`, carried out with the current index `i` and the last accepted
index `zoom`. -/
def selectZoomAux (sx : ℚ) : List ℚ → ℕ → ℕ → ℕ
  | [], _, zoom => zoom
  | v :: rest, i, zoom => if v ≤ sx then selectZoomAux sx rest (i + 1) i else zoom

/-- The pyramid level chosen by `rebuild_transform_to_target_crs` for an
effective resolution `sx`. -/
def selectZoom (l : List ℚ) (sx : ℚ) : ℕ := selectZoomAux sx l 0 0

/-- `GlobalTileInfo.rebuild_transform_to_target_crs`.  The driver-computed
reprojected envelope (`GeometryGenerator(...).transform(t_crs)` followed by
`GetEnvelope()`) is supplied as the function `envF` applied to the source
envelope `(min_x, max_x, min_y, max_y)`; the `is_same_crs` oracle is the
Boolean `sameCrs`.  When the source and target CRS are the same string the
driver leaves the polygon unchanged, so `envF` is the identity there. -/
def rebuildTransform (g : GlobalTileInfo) (t : Transform) (shape : ℤ × ℤ)
    (sameCrs : Bool) (envF : ℚ × ℚ × ℚ × ℚ → ℚ × ℚ × ℚ × ℚ) :
    Transform × (ℤ × ℤ) × Bool × ℕ :=
  if t.c1 = g.scalaX ∧ t.c5 = g.scalaY ∧ sameCrs = true then (t, shape, false, 0)
  else
    let maxX0 := t.c0 + (shape.2 : ℚ) * t.c1
    let minY0 := t.c3 + (shape.1 : ℚ) * t.c5
    let env := envF (t.c0, maxX0, minY0, t.c3)
    let minX := env.1
    let maxX := env.2.1
    let minY := env.2.2.1
    let maxY := env.2.2.2
    let sx := (maxX - minX) / (shape.2 : ℚ)
    -- `sy` is computed in the source but never used for the level choice
    let zoom := selectZoom g.scalaXList sx
    let sXz := g.scalaXList.getD zoom 0
    let sYz := g.scalaYList.getD zoom 0
    let maxY1 := if g.ly ≤ maxY then g.ly
                 else (pyInt ((maxY - g.ly) / sYz) : ℚ) * sYz + g.ly
    let minX1 := if minX ≤ g.lx then g.lx
                 else (pyInt ((minX - g.lx) / sXz) : ℚ) * sXz + g.lx
    let maxX1 := if g.rx ≤ maxX then g.rx
                 else (⌈(maxX - g.lx) / sXz⌉ : ℚ) * sXz + g.lx
    let minY1 := if minY ≤ g.ry then g.ry
                 else (⌈(minY - g.ly) / sYz⌉ : ℚ) * sYz + g.ly
    let h := roundI |(minY1 - maxY1) / sYz|
    let w := roundI |(maxX1 - minX1) / sXz|
    (⟨minX1, sXz, 0, maxY1, 0, sYz⟩, (h, w), true, zoom)

/-! ### The unsliced-band window planner -/

/-- Result of `calculate_read_window_of_unsliced_band`: `err` models the
IndexError of `self.scalaXList[zoom]`, `none` the `return None, None` of
the empty-intersection branch, `pair` the `(read_info, fill_info)` tuple. -/
inductive UnslicedPlan where
  | err
  | none
  | pair (readInfo fillInfo : Rect)
deriving DecidableEq

/-- Body of `calculate_read_window_of_unsliced_band` after the pyramid
lists were indexed successfully. -/
def calcUnslicedCore (g : GlobalTileInfo) (t : Transform) (xSize ySize : ℤ)
    (zoom : ℕ) (scalaX scalaY : ℚ) : UnslicedPlan :=
  let regionLX := t.c0
  let regionLY := t.c3
  let regionRX := t.c0 + t.c1 * xSize
  let regionRY := t.c3 + t.c5 * ySize
  let oYSize := pyInt ((g.ySize : ℚ) / 2 ^ zoom)
  let oXSize := pyInt ((g.xSize : ℚ) / 2 ^ zoom)
  if g.rx ≤ regionLX ∨ regionRX ≤ g.lx ∨ regionLY ≤ g.ry ∨ g.ly ≤ regionRY then
    UnslicedPlan.none
  else
    let disLX := (regionLX - g.lx) / scalaX
    let x0 : ℚ := if disLX < 0 then 0 else disLX
    let offsetX : ℚ := if disLX < 0 then |disLX| else 0
    let disRX := (regionRX - g.rx) / scalaX
    let x1 : ℚ := if 0 ≤ disRX then (oXSize : ℚ) - 1 else (oXSize : ℚ) - 1 + disRX
    let endX : ℚ := if 0 ≤ disRX then (xSize : ℚ) - 1 - disRX else (xSize : ℚ) - 1
    let disLY := (regionLY - g.ly) / scalaY
    let y0 : ℚ := if disLY < 0 then 0 else disLY
    let offsetY : ℚ := if disLY < 0 then |disLY| else 0
    let disRY := (regionRY - g.ry) / scalaY
    let y1 : ℚ := if 0 ≤ disRY then (oYSize : ℚ) - 1 else (oYSize : ℚ) + disRY - 1
    let endY : ℚ := if 0 ≤ disRY then (ySize : ℚ) - 1 - disRY else (ySize : ℚ) - 1
    let rf := normalizedReadAndFillInfo
      ⟨roundI x0, roundI x1, roundI y0, roundI y1⟩
      ⟨roundI offsetX, roundI endX, roundI offsetY, roundI endY⟩
    UnslicedPlan.pair rf.1 rf.2

/-- `GlobalTileInfo.calculate_read_window_of_unsliced_band`. -/
def calcUnsliced (g : GlobalTileInfo) (t : Transform) (xSize ySize : ℤ)
    (zoom : ℕ) : UnslicedPlan :=
  match g.scalaXList.get? zoom, g.scalaYList.get? zoom with
  | some cSx, some cSy => calcUnslicedCore g t xSize ySize zoom cSx cSy
  | _, _ => UnslicedPlan.err

/-! ### Band adapters -/

/-- The metadata a band adapter reads: `metadata.readonly`, the band
nodata, dtype and CRS (kept as opaque strings), plus the lattice. -/
structure Band where
  readonly : Bool
  nodataVal : ℚ
  dtypeName : String
  crsName : String
  gti : GlobalTileInfo
deriving DecidableEq

/-- The single-tile GeoTIFF blob `SlicedBand.write_tile` composes in a
`MemoryFile` (driver `GTiff`): creation keywords plus the overview build.
The pixel payload itself is outside the model; no embedded claim depends
on pixel values. -/
structure TileBlob where
  count : ℕ
  width : ℤ
  height : ℤ
  dtypeName : String
  nodata : ℚ
  transform : Transform
  crsName : String
  lzwCompressed : Bool
  overviewFactors : List ℤ
  overviewNearest : Bool
deriving DecidableEq

/-- The blob `write_tile` builds for lattice tile `(x, y)`:
`count=1, width=shape[1], height=shape[0], dtype=self.metadata.dtypes[0],
nodata=0, transform=tile transform, crs=self.get_projection_as_proj4(),
compress='lzw'` and `build_overviews(self.gti._factors, Resampling.nearest)`. -/
def composeTileBlob (b : Band) (x y : ℤ) : TileBlob :=
  let ti := b.gti.getTileInfo x y
  { count := 1
    width := ti.2.2
    height := ti.2.1
    dtypeName := b.dtypeName
    nodata := 0
    transform := ti.1
    crsName := b.crsName
    lzwCompressed := true
    overviewFactors := b.gti.factors
    overviewNearest := true }

/-- An in-memory numpy array, abstracted to its shape `(rows, cols)`. -/
structure Arr where
  rows : ℤ
  cols : ℤ
deriving DecidableEq

/-- `SlicedBand.write_tile`.  `upload` is the backend oracle
(`client.upload_by_bytes`); the second component lists the uploads issued
(tile coordinates and composed blob).  With `concurrency = true` the source
hands the blob to the shared pool and returns `True` regardless. -/
def slicedWriteTile (b : Band) (upload : ℤ → ℤ → TileBlob → Bool) (x y : ℤ)
    (arr : Arr) (concurrency : Bool) : Bool × List (ℤ × ℤ × TileBlob) :=
  if b.readonly = true ∨ b.gti.writeable = false then (false, [])
  else if ¬(arr.rows = b.gti.tileSize ∧ arr.cols = b.gti.tileSize) then (false, [])
  else
    let blob := composeTileBlob b x y
    if concurrency then (true, [(x, y, blob)])
    else (upload x y blob, [(x, y, blob)])

/-- `SlicedBand.read_tile` always yields a `reSize × reSize` array
(window read of the stored tile, or a nodata fill when absent). -/
def slicedReadTileArr (b : Band) : Arr := ⟨b.gti.reSize, b.gti.reSize⟩

/-- `SlicedBand.write_region`.  `Option.none` models an uncaught exception
(the pyramid lists indexed out of range), otherwise the returned Boolean
`suc` together with the uploads issued by the per-tile `_write_tile` calls.
The local `suc` of the source is initialised `True` and never reassigned
(the closure's `return suc and self.write_tile(...)` value is discarded by
both the serial loop and `pool.map`), so the Boolean result is `True`
whenever a plan exists.  The optional warp of the input onto the lattice
grid (`reproject_by_gdal`) only transforms pixel contents. -/
def slicedWriteRegion (b : Band) (upload : ℤ → ℤ → TileBlob → Bool)
    (t : Transform) (data : Arr) : Option (Bool × List (ℤ × ℤ × TileBlob)) :=
  if b.readonly = true ∨ b.gti.writeable = false then some (false, [])
  else
    match calcSliced b.gti t data.cols data.rows 0 with
    | SlicedPlan.err => Option.none
    | SlicedPlan.none => some (false, [])
    | SlicedPlan.plan es _ _ =>
        some (true, es.flatMap fun e =>
          (slicedWriteTile b upload e.1.1 e.1.2 (slicedReadTileArr b) false).2)

/-- Observable outcome of a `read_region` call. -/
inductive ReadOutcome where
  | empty
  | unpackErr
  | indexErr
  | allocErr
  | buf (shape : ℤ × ℤ)
deriving DecidableEq

/-- The clamp of `SlicedBand.read_region`:
`if xSize >= 4096 or ySize >= 4096: v = min(v, 4096)`. -/
def clampSliced (v other : ℤ) : ℤ :=
  if 4096 ≤ v ∨ 4096 ≤ other then min v 4096 else v

/-- The clamp of `UnSlicedBand.read_region`:
`if xSize > 4096 or ySize > 4096: v = min(v, 4096)`. -/
def clampUnsliced (v other : ℤ) : ℤ :=
  if 4096 < v ∨ 4096 < other then min v 4096 else v

/-- `SlicedBand.read_region` past the size guard: rebuild to the band CRS,
plan, fetch.  `unpackErr` is the `TypeError` raised by
`infos, actual_transform, actual_shape = ...` when the planner returned
`None`; the probe list records the tiles for which the backend is asked
`is_accessible` (one per plan entry).  The returned buffer is the
intermediate array when it already matches the virtual grid, otherwise the
warp output of the requested (clamped) shape. -/
def slicedReadRegionMain (b : Band) (sameCrs : Bool)
    (envF : ℚ × ℚ × ℚ × ℚ → ℚ × ℚ × ℚ × ℚ) (t : Transform) (xSize ySize : ℤ) :
    ReadOutcome × List (ℤ × ℤ) :=
  let xS := clampSliced xSize ySize
  let yS := clampSliced ySize xSize
  let r := rebuildTransform b.gti t (yS, xS) sameCrs envF
  match calcSliced b.gti r.1 r.2.1.2 r.2.1.1 r.2.2.2 with
  | SlicedPlan.err => (ReadOutcome.indexErr, [])
  | SlicedPlan.none => (ReadOutcome.unpackErr, [])
  | SlicedPlan.plan es _ ash =>
      if ash = r.2.1 ∧ r.2.2.1 = false then (ReadOutcome.buf ash, es.map fun e => e.1)
      else (ReadOutcome.buf (yS, xS), es.map fun e => e.1)

/-- `SlicedBand.read_region`, with its guard
`if xSize <= 0 or ySize <= 0: return [[]]`. -/
def slicedReadRegion (b : Band) (sameCrs : Bool)
    (envF : ℚ × ℚ × ℚ × ℚ → ℚ × ℚ × ℚ × ℚ) (t : Transform) (xSize ySize : ℤ) :
    ReadOutcome × List (ℤ × ℤ) :=
  if xSize ≤ 0 ∨ ySize ≤ 0 then (ReadOutcome.empty, [])
  else slicedReadRegionMain b sameCrs envF t xSize ySize

/-- `UnSlicedBand.read_region` past the size guard.  The base array
`np.empty((ySize, xSize))` is allocated after the planner ran; a negative
dimension raises `ValueError` (`allocErr`). -/
def unslicedReadRegionMain (b : Band) (sameCrs : Bool)
    (envF : ℚ × ℚ × ℚ × ℚ → ℚ × ℚ × ℚ × ℚ) (t : Transform) (xSize ySize : ℤ) :
    ReadOutcome :=
  let xS := clampUnsliced xSize ySize
  let yS := clampUnsliced ySize xSize
  let r := rebuildTransform b.gti t (yS, xS) sameCrs envF
  match calcUnsliced b.gti r.1 r.2.1.2 r.2.1.1 r.2.2.2 with
  | UnslicedPlan.err => ReadOutcome.indexErr
  | UnslicedPlan.none =>
      if yS < 0 ∨ xS < 0 then ReadOutcome.allocErr else ReadOutcome.buf (yS, xS)
  | UnslicedPlan.pair _ _ =>
      if yS < 0 ∨ xS < 0 then ReadOutcome.allocErr else ReadOutcome.buf (yS, xS)

/-- `UnSlicedBand.read_region`, with its guard
`if xSize * ySize <= 0: return [[]]`. -/
def unslicedReadRegion (b : Band) (sameCrs : Bool)
    (envF : ℚ × ℚ × ℚ × ℚ → ℚ × ℚ × ℚ × ℚ) (t : Transform) (xSize ySize : ℤ) :
    ReadOutcome :=
  if xSize * ySize ≤ 0 then ReadOutcome.empty
  else unslicedReadRegionMain b sameCrs envF t xSize ySize

/-! ### The in-memory cache (`edm_store/utils/cache.py`)

Keys are modelled as `ℕ`, values by their `sys.getsizeof` size (a `ℕ`),
and wall-clock time (`time.time()`) is passed explicitly to each
operation.  `_CACHE` is an insertion-ordered association list, exactly the
observable content of the Python `OrderedDict`; `_EXPIRE_DICT` likewise. -/

structure CacheState where
  entries : List (ℕ × ℕ)
  expire : List (ℕ × ℤ)
  freeSize : ℤ
  maxsize : ℤ
  defaultExpire : ℤ
deriving DecidableEq

/-- Sum of the accounted sizes of a list of cache entries. -/
def sumSizes (l : List (ℕ × ℕ)) : ℤ := (l.map fun e => (e.2 : ℤ)).sum

/-- The total size of stored values as accounted by the cache. -/
def totalSize (s : CacheState) : ℤ := sumSizes s.entries

/-- `Cache._delete`: free the accounted size if the key is cached, then
drop the key from the expiry dict; both removals tolerate absence. -/
def cacheDelete (s : CacheState) (k : ℕ) : CacheState :=
  let s1 :=
    match s.entries.find? (fun e => decide (e.1 = k)) with
    | some e =>
        { s with entries := s.entries.eraseP (fun e2 => decide (e2.1 = k))
                 freeSize := s.freeSize + (e.2 : ℤ) }
    | Option.none => s
  { s1 with expire := s1.expire.eraseP (fun e2 => decide (e2.1 = k)) }

/-- `Cache._delete_expired`: delete every key of (a copy of) the expiry
dict whose expiration is at or before `now`. -/
def cacheDeleteExpired (s : CacheState) (now : ℤ) : CacheState :=
  (s.expire.filter fun e => decide (e.2 ≤ now)).foldl
    (fun acc e => cacheDelete acc e.1) s

/-- The `while sizeLack < 0` loop of `Cache._evict`: pop the
oldest-inserted entry (`popitem(last=False)`), crediting its size to
`freeSize` and `sizeLack`, until the lack is repaid or the dict is empty
(`KeyError` → `break`).  Evicted keys stay in the expiry dict, as in the
source. -/
def evictLoop : List (ℕ × ℕ) → ℤ → ℤ → List (ℕ × ℕ) × ℤ
  | l, free, lack =>
    if 0 ≤ lack then (l, free)
    else
      match l with
      | [] => ([], free)
      | e :: rest => evictLoop rest (free + (e.2 : ℤ)) (lack + (e.2 : ℤ))

/-- `Cache._evict(sizeNeed)`. -/
def cacheEvict (s : CacheState) (sizeNeed : ℤ) : CacheState :=
  if s.freeSize < sizeNeed then
    let p := evictLoop s.entries s.freeSize (s.freeSize - sizeNeed)
    { s with entries := p.1, freeSize := p.2 }
  else s

/-- `Cache._set(key, value, expire)` where `sz = sys.getsizeof(value)`.
The oversize branch raises `ValueError` after the expiry sweep and touches
nothing else, so the post-sweep state is returned for it. -/
def cacheSet (s : CacheState) (now : ℤ) (k : ℕ) (sz : ℕ) (expire : Option ℤ) :
    CacheState :=
  let exp := expire.getD s.defaultExpire
  let s1 := cacheDeleteExpired s now
  if s1.maxsize < (sz : ℤ) then s1
  else
    let s2 := if (s1.entries.find? (fun e => decide (e.1 = k))).isSome
              then cacheDelete s1 k else s1
    let s3 := cacheEvict s2 (sz : ℤ)
    { s3 with entries := s3.entries ++ [(k, sz)]
              freeSize := s3.freeSize - (sz : ℤ)
              expire := s3.expire.eraseP (fun e2 => decide (e2.1 = k)) ++ [(k, now + exp)] }

/-- `Cache._get(key)`: a cached and expired key is deleted; otherwise the
state is untouched. -/
def cacheGet (s : CacheState) (now : ℤ) (k : ℕ) : CacheState :=
  match s.entries.find? (fun e => decide (e.1 = k)) with
  | Option.none => s
  | some _ =>
      match s.expire.find? (fun e => decide (e.1 = k)) with
      | some e2 => if e2.2 ≤ now then cacheDelete s k else s
      | Option.none => s

/-- The public, lock-guarded operations of `Cache`, with explicit clock
values. -/
inductive CacheOp where
  | set (now : ℤ) (k : ℕ) (sz : ℕ) (expire : Option ℤ)
  | get (now : ℤ) (k : ℕ)
  | del (k : ℕ)
  | delExpired (now : ℤ)
deriving DecidableEq

/-- State transition of one cache operation. -/
def cacheStep (s : CacheState) : CacheOp → CacheState
  | CacheOp.set now k sz expire => cacheSet s now k sz expire
  | CacheOp.get now k => cacheGet s now k
  | CacheOp.del k => cacheDelete s k
  | CacheOp.delExpired now => cacheDeleteExpired s now

/-- Run a sequence of cache operations. -/
def cacheRun (s : CacheState) (ops : List CacheOp) : CacheState :=
  ops.foldl cacheStep s

/-- A freshly constructed `Cache(maxsize, defaultExpire)`:
`freeSize = maxsize`, empty dicts. -/
def initCache (maxsize defaultExpire : ℤ) : CacheState :=
  ⟨[], [], maxsize, maxsize, defaultExpire⟩

/-- The accounting invariant of the cache: `freeSize` is exactly the
capacity minus the accounted content, and it is never negative. -/
def CacheInv (s : CacheState) : Prop :=
  s.freeSize = s.maxsize - totalSize s ∧ 0 ≤ s.freeSize

/-! ### Concrete instances used by witnesses and counterexamples -/

/-- A small lattice: pixel grid `4 × 4` at unit resolution, tile size 2,
hence a `2 × 2` lattice of tiles with the first tile at the origin. -/
def gDemo : GlobalTileInfo := mkGlobalTileInfo ⟨0, 1, 0, 0, 0, -1⟩ 4 4 2 true

/-- A writable sliced band over `gDemo` with nodata `-9999`. -/
def bDemo : Band :=
  { readonly := false
    nodataVal := -9999
    dtypeName := "int16"
    crsName := "EPSG:3857"
    gti := gDemo }

/-- A lattice with the stored tile size 2048 (the E1 dataset of the spec:
`transform = (12834619, 30, 0, 5011732, 0, -30)`, shape `(2000, 2000)`). -/
def gDemo2048 : GlobalTileInfo :=
  mkGlobalTileInfo ⟨12834619, 30, 0, 5011732, 0, -30⟩ 2000 2000 2048 true

/-! ## Theorems -/

/-- `_normalized_read_and_fill_info` always returns a read window and a
fill window of equal width and equal height. -/
theorem normalizedReadAndFillInfo_sizes (r f : Rect) :
    ((normalizedReadAndFillInfo r f).1.x1 - (normalizedReadAndFillInfo r f).1.x0 =
      (normalizedReadAndFillInfo r f).2.x1 - (normalizedReadAndFillInfo r f).2.x0) ∧
    ((normalizedReadAndFillInfo r f).1.y1 - (normalizedReadAndFillInfo r f).1.y0 =
      (normalizedReadAndFillInfo r f).2.y1 - (normalizedReadAndFillInfo r f).2.y0) := by
  obtain ⟨a, b, c, d⟩ := r
  obtain ⟨a2, b2, c2, d2⟩ := f
  simp only [normalizedReadAndFillInfo]
  split_ifs <;> simp_all <;> omega

/-- C1: every entry of a plan returned by
`calculate_read_window_of_sliced_band` has `read` and `fill` rectangles of
equal side lengths, and so does the single pair returned by
`calculate_read_window_of_unsliced_band` when it is not null. -/
theorem plan_size_symmetry :
    (∀ (g : GlobalTileInfo) (t : Transform) (xSize ySize : ℤ) (zoom : ℕ)
        (es : List ((ℤ × ℤ) × Rect × Rect)) (atf : Transform) (ash : ℤ × ℤ),
        calcSliced g t xSize ySize zoom = SlicedPlan.plan es atf ash →
        ∀ e ∈ es, e.2.1.x1 - e.2.1.x0 = e.2.2.x1 - e.2.2.x0 ∧
          e.2.1.y1 - e.2.1.y0 = e.2.2.y1 - e.2.2.y0) ∧
    (∀ (g : GlobalTileInfo) (t : Transform) (xSize ySize : ℤ) (zoom : ℕ) (r f : Rect),
        calcUnsliced g t xSize ySize zoom = UnslicedPlan.pair r f →
        r.x1 - r.x0 = f.x1 - f.x0 ∧ r.y1 - r.y0 = f.y1 - f.y0) := by
  constructor
  · intro g t xS yS zoom es atf ash h e he
    unfold calcSliced at h
    split at h
    case _ =>
      simp only [calcSlicedCore] at h
      split at h
      · exact absurd h (by simp)
      · simp only [SlicedPlan.plan.injEq] at h
        obtain ⟨h1, -, -⟩ := h
        subst h1
        simp only [slicedEntries, List.mem_flatMap, List.mem_map] at he
        obtain ⟨x, -, y, -, rfl⟩ := he
        simp only [slicedEntry]
        exact ⟨(normalizedReadAndFillInfo_sizes _ _).1,
               (normalizedReadAndFillInfo_sizes _ _).2⟩
    case _ => exact absurd h (by simp)
  · intro g t xS yS zoom r f h
    unfold calcUnsliced at h
    split at h
    case _ =>
      simp only [calcUnslicedCore] at h
      split at h
      · exact absurd h (by simp)
      · simp only [UnslicedPlan.pair.injEq] at h
        obtain ⟨h1, h2⟩ := h
        subst h1; subst h2
        exact ⟨(normalizedReadAndFillInfo_sizes _ _).1,
               (normalizedReadAndFillInfo_sizes _ _).2⟩
    case _ => exact absurd h (by simp)

set_option maxRecDepth 2000 in
/-- Witness for C1: a concrete four-tile plan and a concrete unsliced pair
on the demo lattice, with the size symmetry obtained from
`plan_size_symmetry` itself. -/
theorem plan_size_symmetry_witness :
    (calcSliced gDemo ⟨1, 1, 0, -1, 0, -1⟩ 2 2 0 = SlicedPlan.plan
        [((0, 0), ⟨1, 1, 1, 1⟩, ⟨0, 0, 0, 0⟩), ((0, 1), ⟨1, 1, 0, 0⟩, ⟨0, 0, 1, 1⟩),
         ((1, 0), ⟨0, 0, 1, 1⟩, ⟨1, 1, 0, 0⟩), ((1, 1), ⟨0, 0, 0, 0⟩, ⟨1, 1, 1, 1⟩)]
        ⟨1, 1, 0, -1, 0, -1⟩ (2, 2)) ∧
    (∀ e ∈ ([((0, 0), ⟨1, 1, 1, 1⟩, ⟨0, 0, 0, 0⟩), ((0, 1), ⟨1, 1, 0, 0⟩, ⟨0, 0, 1, 1⟩),
             ((1, 0), ⟨0, 0, 1, 1⟩, ⟨1, 1, 0, 0⟩), ((1, 1), ⟨0, 0, 0, 0⟩, ⟨1, 1, 1, 1⟩)] :
             List ((ℤ × ℤ) × Rect × Rect)),
        e.2.1.x1 - e.2.1.x0 = e.2.2.x1 - e.2.2.x0 ∧
          e.2.1.y1 - e.2.1.y0 = e.2.2.y1 - e.2.2.y0) ∧
    (calcUnsliced gDemo ⟨1, 1, 0, -1, 0, -1⟩ 2 2 0 =
      UnslicedPlan.pair ⟨1, 2, 1, 2⟩ ⟨0, 1, 0, 1⟩) ∧
    ((⟨1, 2, 1, 2⟩ : Rect).x1 - (⟨1, 2, 1, 2⟩ : Rect).x0 =
        (⟨0, 1, 0, 1⟩ : Rect).x1 - (⟨0, 1, 0, 1⟩ : Rect).x0 ∧
      (⟨1, 2, 1, 2⟩ : Rect).y1 - (⟨1, 2, 1, 2⟩ : Rect).y0 =
        (⟨0, 1, 0, 1⟩ : Rect).y1 - (⟨0, 1, 0, 1⟩ : Rect).y0) :=
  ⟨by with_unfolding_all decide,
   plan_size_symmetry.1 gDemo ⟨1, 1, 0, -1, 0, -1⟩ 2 2 0
     ([((0, 0), ⟨1, 1, 1, 1⟩, ⟨0, 0, 0, 0⟩), ((0, 1), ⟨1, 1, 0, 0⟩, ⟨0, 0, 1, 1⟩),
       ((1, 0), ⟨0, 0, 1, 1⟩, ⟨1, 1, 0, 0⟩), ((1, 1), ⟨0, 0, 0, 0⟩, ⟨1, 1, 1, 1⟩)] :
       List ((ℤ × ℤ) × Rect × Rect))
     ⟨1, 1, 0, -1, 0, -1⟩ (2, 2) (by with_unfolding_all decide),
   by with_unfolding_all decide,
   plan_size_symmetry.2 gDemo ⟨1, 1, 0, -1, 0, -1⟩ 2 2 0 ⟨1, 2, 1, 2⟩ ⟨0, 1, 0, 1⟩
     (by with_unfolding_all decide)⟩

set_option maxRecDepth 2000 in
/-- C2 (code bug): on a window disjoint from the data in x but overlapping
in y — an empty envelope intersection — `calculate_read_window_of_sliced_band`
returns `None`, and `SlicedBand.read_region` then raises a `TypeError`
unpacking it (`unpackErr`) instead of returning a nodata-filled buffer. -/
theorem sliced_read_empty_intersection_crashes :
    calcSliced gDemo ⟨100, 1, 0, -1, 0, -1⟩ 2 2 0 = SlicedPlan.none ∧
    slicedReadRegion bDemo true (fun e => e) ⟨100, 1, 0, -1, 0, -1⟩ 2 2 =
      (ReadOutcome.unpackErr, []) := by with_unfolding_all decide

/-- C4: when the band is read-only or the lattice was resized, both
`SlicedBand.write_tile` and `SlicedBand.write_region` return `False` and
issue no backend upload. -/
theorem write_guard_no_mutation (b : Band) (upload : ℤ → ℤ → TileBlob → Bool)
    (x y : ℤ) (arr : Arr) (conc : Bool) (t : Transform) (d : Arr)
    (h : b.readonly = true ∨ b.gti.writeable = false) :
    slicedWriteTile b upload x y arr conc = (false, []) ∧
    slicedWriteRegion b upload t d = some (false, []) := by
  constructor
  · unfold slicedWriteTile
    rw [if_pos h]
  · unfold slicedWriteRegion
    rw [if_pos h]

set_option maxRecDepth 2000 in
/-- Witness for C4: a read-only copy of the demo band refuses both write
calls without uploading. -/
theorem write_guard_no_mutation_witness :
    (({ bDemo with readonly := true } : Band).readonly = true ∨
      ({ bDemo with readonly := true } : Band).gti.writeable = false) ∧
    (slicedWriteTile { bDemo with readonly := true } (fun _ _ _ => true) 0 0 ⟨2, 2⟩ false =
        (false, []) ∧
      slicedWriteRegion { bDemo with readonly := true } (fun _ _ _ => true)
        ⟨0, 1, 0, 0, 0, -1⟩ ⟨4, 4⟩ = some (false, [])) :=
  ⟨Or.inl rfl,
   write_guard_no_mutation { bDemo with readonly := true } (fun _ _ _ => true) 0 0
     ⟨2, 2⟩ false ⟨0, 1, 0, 0, 0, -1⟩ ⟨4, 4⟩ (Or.inl rfl)⟩

set_option maxRecDepth 2000 in
/-- C5 (counterexample): the tile blob composed by `write_tile` carries a
hard-coded nodata of `0`, not the band's nodata (`-9999` here), refuting
the claim as stated. -/
theorem write_tile_nodata_counterexample :
    (slicedWriteTile bDemo (fun _ _ _ => true) 0 0 ⟨2, 2⟩ false).2 =
      [(0, 0, composeTileBlob bDemo 0 0)] ∧
    (composeTileBlob bDemo 0 0).nodata = 0 ∧ bDemo.nodataVal = -9999 ∧
    ¬((composeTileBlob bDemo 0 0).nodata = bDemo.nodataVal) := by
  have hB : (composeTileBlob bDemo 0 0).nodata = 0 := by with_unfolding_all decide
  have hC : bDemo.nodataVal = -9999 := rfl
  refine ⟨by with_unfolding_all decide, hB, hC, ?_⟩
  rw [hB, hC]
  norm_num

/-- C5 (amended): every blob composed by `write_tile` on a writable band of
matching shape is a single-band, LZW-compressed GeoTIFF of the stored tile
size, carrying the tile's transform, the band's CRS and dtype, a
hard-coded nodata of `0`, and overviews built from the lattice's factor
list with nearest resampling. -/
theorem write_tile_blob_spec (b : Band) (upload : ℤ → ℤ → TileBlob → Bool)
    (x y : ℤ) (arr : Arr) (conc : Bool)
    (h1 : b.readonly = false) (h2 : b.gti.writeable = true)
    (h3 : arr.rows = b.gti.tileSize) (h4 : arr.cols = b.gti.tileSize) :
    (slicedWriteTile b upload x y arr conc).2 = [(x, y, composeTileBlob b x y)] ∧
    (composeTileBlob b x y).count = 1 ∧
    (composeTileBlob b x y).lzwCompressed = true ∧
    (composeTileBlob b x y).width = b.gti.tileSize ∧
    (composeTileBlob b x y).height = b.gti.tileSize ∧
    (composeTileBlob b x y).transform = (b.gti.getTileInfo x y).1 ∧
    (composeTileBlob b x y).crsName = b.crsName ∧
    (composeTileBlob b x y).dtypeName = b.dtypeName ∧
    (composeTileBlob b x y).nodata = 0 ∧
    (composeTileBlob b x y).overviewFactors = b.gti.factors ∧
    (composeTileBlob b x y).overviewNearest = true := by
  have hw : b.gti.tileSize = b.gti.reSize := by
    have h2b := h2
    unfold GlobalTileInfo.writeable at h2b
    exact beq_iff_eq.mp h2b
  refine ⟨?_, rfl, rfl, ?_, ?_, rfl, rfl, rfl, rfl, rfl, rfl⟩
  · simp [slicedWriteTile, h1, h2, h3, h4]
    cases conc <;> simp
  · simp [composeTileBlob, GlobalTileInfo.getTileInfo, hw]
  · simp [composeTileBlob, GlobalTileInfo.getTileInfo, hw]

set_option maxRecDepth 2000 in
/-- Witness for the amended C5, at the demo band and a `2 × 2` array. -/
theorem write_tile_blob_spec_witness :
    (bDemo.readonly = false ∧ bDemo.gti.writeable = true ∧
      (Arr.mk 2 2).rows = bDemo.gti.tileSize ∧ (Arr.mk 2 2).cols = bDemo.gti.tileSize) ∧
    ((slicedWriteTile bDemo (fun _ _ _ => true) 0 0 (Arr.mk 2 2) false).2 =
        [(0, 0, composeTileBlob bDemo 0 0)] ∧
      (composeTileBlob bDemo 0 0).count = 1 ∧
      (composeTileBlob bDemo 0 0).lzwCompressed = true ∧
      (composeTileBlob bDemo 0 0).width = bDemo.gti.tileSize ∧
      (composeTileBlob bDemo 0 0).height = bDemo.gti.tileSize ∧
      (composeTileBlob bDemo 0 0).transform = (bDemo.gti.getTileInfo 0 0).1 ∧
      (composeTileBlob bDemo 0 0).crsName = bDemo.crsName ∧
      (composeTileBlob bDemo 0 0).dtypeName = bDemo.dtypeName ∧
      (composeTileBlob bDemo 0 0).nodata = 0 ∧
      (composeTileBlob bDemo 0 0).overviewFactors = bDemo.gti.factors ∧
      (composeTileBlob bDemo 0 0).overviewNearest = true) :=
  ⟨⟨rfl, by with_unfolding_all decide, by with_unfolding_all decide, by with_unfolding_all decide⟩,
   write_tile_blob_spec bDemo (fun _ _ _ => true) 0 0 (Arr.mk 2 2) false rfl
     (by with_unfolding_all decide) (by with_unfolding_all decide) (by with_unfolding_all decide)⟩

set_option maxRecDepth 2000 in
/-- C6 (code bug): a `write_region` touching four tiles whose every backend
upload fails still returns `True` — the local `suc` flag is never updated
from the per-tile results. -/
theorem write_region_ignores_failures :
    (slicedWriteRegion bDemo (fun _ _ _ => false) ⟨0, 1, 0, 0, 0, -1⟩ ⟨4, 4⟩).map
        Prod.fst = some true ∧
    (slicedWriteRegion bDemo (fun _ _ _ => false) ⟨0, 1, 0, 0, 0, -1⟩ ⟨4, 4⟩).map
        (fun p => p.2.length) = some 4 := by with_unfolding_all decide

set_option maxRecDepth 2000 in
/-- C7 (counterexample): `resize(1000)` on a stored tile size of 2048
succeeds even though 1000 does not divide 2048 — no divisibility check is
performed, only `times < 1` is rejected. -/
theorem resize_nondividing_accepted :
    (GlobalTileInfo.resize gDemo2048 1000).toOption.isSome = true ∧
    ¬((1000 : ℤ) ∣ 2048) ∧ gDemo2048.tileSize = 2048 := by
  refine ⟨by with_unfolding_all decide, by with_unfolding_all decide, by with_unfolding_all decide⟩

/-- C7 (amended): `resize` errors exactly when the requested size is
non-positive or exceeds the stored tile size; any positive size up to the
stored size is accepted (dividing or not), after which `reSize` is the
requested size and `writeable()` holds only for the stored size itself. -/
theorem resize_spec (g : GlobalTileInfo) (t : ℤ) (hT : 0 < g.tileSize) :
    ((GlobalTileInfo.resize g t).toOption.isSome = true ↔ 0 < t ∧ t ≤ g.tileSize) ∧
    ((GlobalTileInfo.resize g t).toOption.map (fun g2 => (g2.writeable, g2.reSize)) =
        Option.none ∨
      (GlobalTileInfo.resize g t).toOption.map (fun g2 => (g2.writeable, g2.reSize)) =
        some (g.tileSize == t, t)) := by
  have hnone : ∀ s : String,
      ((Except.error s : Except String GlobalTileInfo).toOption.isSome = false) ∧
      (Except.error s : Except String GlobalTileInfo).toOption.map
        (fun g2 => (g2.writeable, g2.reSize)) = Option.none := fun s => ⟨rfl, rfl⟩
  unfold GlobalTileInfo.resize
  by_cases ht0 : t = 0
  · subst ht0
    rw [if_pos rfl]
    refine ⟨?_, Or.inl (hnone _).2⟩
    rw [(hnone _).1]
    simp only [Bool.false_eq_true, false_iff]
    rintro ⟨hp, -⟩
    omega
  · rw [if_neg ht0]
    by_cases hc : ((g.tileSize : ℚ) / (t : ℚ) < 1)
    · rw [if_pos hc]
      refine ⟨?_, Or.inl (hnone _).2⟩
      rw [(hnone _).1]
      simp only [Bool.false_eq_true, false_iff]
      rintro ⟨hp, hle⟩
      have htq : (0 : ℚ) < (t : ℚ) := by exact_mod_cast hp
      rw [div_lt_one htq] at hc
      have hle2 : (t : ℚ) ≤ (g.tileSize : ℚ) := by exact_mod_cast hle
      linarith
    · rw [if_neg hc]
      have htq : (0 : ℚ) < (t : ℚ) := by
        rcases lt_trichotomy t 0 with hlt | heq | hgt
        · exfalso
          apply hc
          have hTq : (0 : ℚ) < (g.tileSize : ℚ) := by exact_mod_cast hT
          have htn : (t : ℚ) < 0 := by exact_mod_cast hlt
          have hdn : (g.tileSize : ℚ) / (t : ℚ) < 0 := div_neg_of_pos_of_neg hTq htn
          linarith
        · exact absurd heq ht0
        · exact_mod_cast hgt
      have h1 : (1 : ℚ) ≤ (g.tileSize : ℚ) / (t : ℚ) := not_lt.1 hc
      rw [one_le_div htq] at h1
      have hle : t ≤ g.tileSize := by exact_mod_cast h1
      have hp : 0 < t := by exact_mod_cast htq
      exact ⟨iff_of_true rfl ⟨hp, hle⟩, Or.inr rfl⟩

set_option maxRecDepth 2000 in
/-- Witness for the amended C7: resizing the 2048 lattice to 1024 succeeds
and leaves a non-writable lattice with `reSize = 1024`. -/
theorem resize_spec_witness :
    0 < gDemo2048.tileSize ∧
    (((GlobalTileInfo.resize gDemo2048 1024).toOption.isSome = true ↔
        0 < (1024 : ℤ) ∧ (1024 : ℤ) ≤ gDemo2048.tileSize) ∧
      ((GlobalTileInfo.resize gDemo2048 1024).toOption.map
          (fun g2 => (g2.writeable, g2.reSize)) = Option.none ∨
        (GlobalTileInfo.resize gDemo2048 1024).toOption.map
          (fun g2 => (g2.writeable, g2.reSize)) = some (gDemo2048.tileSize == 1024, 1024))) :=
  ⟨by with_unfolding_all decide, resize_spec gDemo2048 1024 (by with_unfolding_all decide)⟩

/-- The post-guard stage of `SlicedBand.read_region` never yields the
`[[]]` early-return value. -/
theorem slicedReadRegionMain_ne_empty (b : Band) (sameCrs : Bool)
    (envF : ℚ × ℚ × ℚ × ℚ → ℚ × ℚ × ℚ × ℚ) (t : Transform) (xSize ySize : ℤ) :
    (slicedReadRegionMain b sameCrs envF t xSize ySize).1 ≠ ReadOutcome.empty := by
  simp only [slicedReadRegionMain]
  split
  · simp
  · simp
  · split <;> simp

/-- The post-guard stage of `UnSlicedBand.read_region` never yields the
`[[]]` early-return value. -/
theorem unslicedReadRegionMain_ne_empty (b : Band) (sameCrs : Bool)
    (envF : ℚ × ℚ × ℚ × ℚ → ℚ × ℚ × ℚ × ℚ) (t : Transform) (xSize ySize : ℤ) :
    unslicedReadRegionMain b sameCrs envF t xSize ySize ≠ ReadOutcome.empty := by
  simp only [unslicedReadRegionMain]
  split
  · simp
  · split <;> simp
  · split <;> simp

/-- C10: `SlicedBand.read_region` returns the empty result exactly when
`xSize ≤ 0 ∨ ySize ≤ 0`, while `UnSlicedBand.read_region` does so exactly
when `xSize * ySize ≤ 0`; in particular a call with both sizes negative
passes the unsliced guard and proceeds. -/
theorem read_region_guards :
    (∀ (b : Band) (sameCrs : Bool) (envF : ℚ × ℚ × ℚ × ℚ → ℚ × ℚ × ℚ × ℚ)
        (t : Transform) (xSize ySize : ℤ),
        (slicedReadRegion b sameCrs envF t xSize ySize).1 = ReadOutcome.empty ↔
          xSize ≤ 0 ∨ ySize ≤ 0) ∧
    (∀ (b : Band) (sameCrs : Bool) (envF : ℚ × ℚ × ℚ × ℚ → ℚ × ℚ × ℚ × ℚ)
        (t : Transform) (xSize ySize : ℤ),
        unslicedReadRegion b sameCrs envF t xSize ySize = ReadOutcome.empty ↔
          xSize * ySize ≤ 0) ∧
    (∀ (b : Band) (sameCrs : Bool) (envF : ℚ × ℚ × ℚ × ℚ → ℚ × ℚ × ℚ × ℚ)
        (t : Transform) (xSize ySize : ℤ),
        xSize < 0 → ySize < 0 →
        unslicedReadRegion b sameCrs envF t xSize ySize ≠ ReadOutcome.empty) := by
  have hs : ∀ (b : Band) (sameCrs : Bool) (envF : ℚ × ℚ × ℚ × ℚ → ℚ × ℚ × ℚ × ℚ)
      (t : Transform) (xSize ySize : ℤ),
      (slicedReadRegion b sameCrs envF t xSize ySize).1 = ReadOutcome.empty ↔
        xSize ≤ 0 ∨ ySize ≤ 0 := by
    intro b sameCrs envF t xSize ySize
    unfold slicedReadRegion
    by_cases hg : xSize ≤ 0 ∨ ySize ≤ 0
    · rw [if_pos hg]
      simpa using hg
    · rw [if_neg hg]
      exact iff_of_false (slicedReadRegionMain_ne_empty b sameCrs envF t xSize ySize) hg
  have hu : ∀ (b : Band) (sameCrs : Bool) (envF : ℚ × ℚ × ℚ × ℚ → ℚ × ℚ × ℚ × ℚ)
      (t : Transform) (xSize ySize : ℤ),
      unslicedReadRegion b sameCrs envF t xSize ySize = ReadOutcome.empty ↔
        xSize * ySize ≤ 0 := by
    intro b sameCrs envF t xSize ySize
    unfold unslicedReadRegion
    by_cases hg : xSize * ySize ≤ 0
    · rw [if_pos hg]
      simpa using hg
    · rw [if_neg hg]
      exact iff_of_false (unslicedReadRegionMain_ne_empty b sameCrs envF t xSize ySize) hg
  refine ⟨hs, hu, ?_⟩
  intro b sameCrs envF t xSize ySize hx hy h
  rw [hu] at h
  have hpos : 0 < xSize * ySize := mul_pos_of_neg_of_neg hx hy
  linarith

set_option maxRecDepth 2000 in
/-- Witness for C10: a `(-1, -1)` request passes the unsliced guard and
proceeds, while the sliced guard returns the empty result for it. -/
theorem read_region_guards_witness :
    ((-1 : ℤ) < 0 ∧ (-1 : ℤ) < 0) ∧
    unslicedReadRegion bDemo true (fun e => e) ⟨0, 1, 0, 0, 0, -1⟩ (-1) (-1) ≠
      ReadOutcome.empty ∧
    ((slicedReadRegion bDemo true (fun e => e) ⟨0, 1, 0, 0, 0, -1⟩ (-1) (-1)).1 =
        ReadOutcome.empty ↔ (-1 : ℤ) ≤ 0 ∨ (-1 : ℤ) ≤ 0) :=
  ⟨⟨by with_unfolding_all decide, by with_unfolding_all decide⟩,
   read_region_guards.2.2 bDemo true (fun e => e) ⟨0, 1, 0, 0, 0, -1⟩ (-1) (-1)
     (by with_unfolding_all decide) (by with_unfolding_all decide),
   read_region_guards.1 bDemo true (fun e => e) ⟨0, 1, 0, 0, 0, -1⟩ (-1) (-1)⟩

/-- Nearest rounding of a value whose fractional part is below one half is the floor. -/
theorem round_fract_lt (q : ℚ) (h : Int.fract q < 1 / 2) : round q = ⌊q⌋ := by
  rw [round_eq]
  have h2 : q + 1 / 2 = (⌊q⌋ : ℚ) + (Int.fract q + 1 / 2) := by
    rw [← Int.self_sub_floor]
    ring
  rw [h2, Int.floor_int_add]
  have h3 : ⌊Int.fract q + 1 / 2⌋ = 0 := by
    rw [Int.floor_eq_zero_iff, Set.mem_Ico]
    have h5 := Int.fract_nonneg q
    constructor <;> linarith
  omega

/-- Nearest rounding of a value whose fractional part is at least one half is the floor plus one. -/
theorem round_fract_ge (q : ℚ) (h : 1 / 2 ≤ Int.fract q) : round q = ⌊q⌋ + 1 := by
  rw [round_eq]
  have h2 : q + 1 / 2 = (⌊q⌋ : ℚ) + (Int.fract q + 1 / 2) := by
    rw [← Int.self_sub_floor]
    ring
  rw [h2, Int.floor_int_add]
  have h3 : ⌊Int.fract q + 1 / 2⌋ = 1 := by
    have h4 := Int.fract_lt_one q
    rw [Int.floor_eq_iff]
    constructor <;> push_cast <;> linarith
  omega

/-- Python round on a fractional part below one half takes the floor. -/
theorem pyRound_fract_lt (q : ℚ) (h : Int.fract q < 1 / 2) : pyRound q = ⌊q⌋ := by
  unfold pyRound
  rw [if_pos h]

/-- Python round on a fractional part above one half takes the floor plus one. -/
theorem pyRound_fract_gt (q : ℚ) (h : 1 / 2 < Int.fract q) : pyRound q = ⌊q⌋ + 1 := by
  unfold pyRound
  rw [if_neg (not_lt.2 h.le), if_pos h]

/-- For a nonnegative value, the first decimal digit past the point is the floor of ten times the fractional part. -/
theorem fracDigit_zero_nonneg (q : ℚ) (hq : 0 ≤ q) :
    fracDigit q 0 = ⌊10 * Int.fract q⌋ := by
  unfold fracDigit
  rw [abs_of_nonneg hq, pow_one]
  have hsplit : q * 10 = ((10 * ⌊q⌋ : ℤ) : ℚ) + 10 * Int.fract q := by
    rw [← Int.self_sub_floor]
    push_cast
    ring
  rw [hsplit, Int.floor_int_add]
  have hd0 : 0 ≤ ⌊10 * Int.fract q⌋ := by
    apply Int.floor_nonneg.2
    have := Int.fract_nonneg q
    linarith
  have hd9 : ⌊10 * Int.fract q⌋ < 10 := by
    rw [Int.floor_lt]
    have := Int.fract_lt_one q
    push_cast
    linarith
  omega

/-- For a nonnegative value, the first decimal digit is 5 exactly when the fractional part lies in the interval from one half to three fifths. -/
theorem fracDigit_five_iff (q : ℚ) (hq : 0 ≤ q) :
    fracDigit q 0 = 5 ↔ 1 / 2 ≤ Int.fract q ∧ Int.fract q < 3 / 5 := by
  rw [fracDigit_zero_nonneg q hq, Int.floor_eq_iff]
  constructor
  · rintro ⟨h1, h2⟩
    push_cast at h1 h2
    constructor <;> linarith
  · rintro ⟨h1, h2⟩
    constructor <;> push_cast <;> linarith

/-- On nonnegative values that are not exact halves, the rounding of `_rounding` at precision 0 agrees with ordinary nearest rounding. -/
theorem roundI_nonneg_nothalf (q : ℚ) (hq : 0 ≤ q) (hh : Int.fract q ≠ 1 / 2) :
    roundI q = round q := by
  unfold roundI bump
  by_cases h5 : fracDigit q 0 = 5
  · rw [if_pos h5]
    obtain ⟨hge, hlt⟩ := (fracDigit_five_iff q hq).1 h5
    have hgt : 1 / 2 < Int.fract q := lt_of_le_of_ne hge (Ne.symm hh)
    have h6 : (1 : ℚ) / 10 ^ (0 + 1) = 1 / 10 := by norm_num
    rw [h6]
    have h7 := Int.self_sub_floor q
    have hfl : ⌊q + 1 / 10⌋ = ⌊q⌋ := by
      rw [Int.floor_eq_iff]
      constructor
      · have := Int.floor_le q
        linarith
      · push_cast
        linarith
    have hfr : Int.fract (q + 1 / 10) = Int.fract q + 1 / 10 := by
      rw [← Int.self_sub_floor, hfl, ← Int.self_sub_floor]
      ring
    rw [pyRound_fract_gt _ (by rw [hfr]; linarith), hfl, round_fract_ge q hgt.le]
  · rw [if_neg h5]
    rcases lt_or_le (Int.fract q) (1 / 2) with hlt | hge
    · rw [pyRound_fract_lt _ hlt, round_fract_lt _ hlt]
    · have h35 : 3 / 5 ≤ Int.fract q := by
        by_contra hcon
        exact h5 ((fracDigit_five_iff q hq).2 ⟨hge, not_le.1 hcon⟩)
      rw [pyRound_fract_gt _ (by linarith), round_fract_ge _ hge]

/-- On exact halves, `_rounding` at precision 0 rounds upward. -/
theorem roundI_half (k : ℤ) (hk : 0 ≤ k) : roundI ((k : ℚ) + 1 / 2) = k + 1 := by
  have hkq : (0 : ℚ) ≤ (k : ℚ) := by exact_mod_cast hk
  have hq : (0 : ℚ) ≤ (k : ℚ) + 1 / 2 := by linarith
  have hfr : Int.fract ((k : ℚ) + 1 / 2) = 1 / 2 := by
    rw [Int.fract_int_add, Int.fract_eq_self.2 (by norm_num)]
  have h5 : fracDigit ((k : ℚ) + 1 / 2) 0 = 5 := by
    rw [fracDigit_zero_nonneg _ hq, hfr]
    norm_num
  unfold roundI bump
  rw [if_pos h5]
  have he : (k : ℚ) + 1 / 2 + 1 / 10 ^ (0 + 1) = (k : ℚ) + 3 / 5 := by ring_nf
  rw [he]
  have hfr2 : Int.fract ((k : ℚ) + 3 / 5) = 3 / 5 := by
    rw [Int.fract_int_add, Int.fract_eq_self.2 (by norm_num)]
  rw [pyRound_fract_gt _ (by rw [hfr2]; norm_num)]
  have hfl2 : ⌊(k : ℚ) + 3 / 5⌋ = k := by
    rw [Int.floor_int_add]
    norm_num
  rw [hfl2]

/-- Shifting by a power of ten moves the inspected decimal digit to position zero. -/
theorem fracDigit_shift (q : ℚ) (n : ℕ) : fracDigit q n = fracDigit (q * 10 ^ n) 0 := by
  unfold fracDigit
  rw [abs_mul, abs_pow]
  congr 2
  rw [show |(10 : ℚ)| = 10 by norm_num]
  ring

/-- C8 (amended): `_rounding` rounds exact nonnegative halves upward
(`_rounding(k + 0.5) = k + 1`), and nonnegative values that are not exact
halves at precision `n` round as ordinary nearest rounding at precision
`n`.  (Negative non-half values whose digit past the precision is 5 are
shifted up by the bump, so the nonnegativity restriction is necessary —
see the counterexample.) -/
theorem rounding_spec :
    (∀ k : ℤ, 0 ≤ k → rounding ((k : ℚ) + 1 / 2) 0 = (k : ℚ) + 1) ∧
    (∀ (q : ℚ) (n : ℕ), 0 ≤ q → Int.fract (q * 10 ^ n) ≠ 1 / 2 →
        rounding q n = ((round (q * 10 ^ n) : ℤ) : ℚ) / 10 ^ n) := by
  constructor
  · intro k hk
    have h := roundI_half k hk
    unfold roundI at h
    unfold rounding
    rw [if_pos rfl, h]
    norm_cast
  · intro q n hq hh
    match n with
    | 0 =>
      rw [pow_zero, mul_one] at hh
      have hcore := roundI_nonneg_nothalf q hq hh
      unfold roundI at hcore
      unfold rounding
      rw [if_pos rfl]
      simp only [pow_zero, mul_one, div_one]
      rw [hcore]
    | Nat.succ m =>
      unfold rounding
      rw [if_neg (Nat.succ_ne_zero m)]
      congr 1
      have hb : bump q (m + 1) * 10 ^ (m + 1) = bump (q * 10 ^ (m + 1)) 0 := by
        unfold bump
        rw [← fracDigit_shift q (m + 1)]
        split_ifs with h5
        · rw [add_mul]
          congr 1
          rw [pow_succ 10 (m + 1)]
          field_simp
        · rfl
      rw [hb]
      have hq2 : (0 : ℚ) ≤ q * 10 ^ (m + 1) := mul_nonneg hq (by positivity)
      have hcore := roundI_nonneg_nothalf (q * 10 ^ (m + 1)) hq2 hh
      unfold roundI at hcore
      rw [hcore]

/-- C8 (counterexample): `-0.51` is not an exact half, ordinary rounding
gives `-1`, yet `_rounding(-0.51)` returns `0` — the digit test fires on
`|q|` and the upward bump crosses the rounding boundary for negatives. -/
theorem rounding_negative_counterexample :
    rounding (-51 / 100) 0 = 0 ∧ round ((-51 : ℚ) / 100) = -1 ∧
    Int.fract ((-51 : ℚ) / 100) ≠ 1 / 2 := by
  refine ⟨by with_unfolding_all decide, ?_, ?_⟩
  · rw [round_eq]
    norm_num
  · rw [Int.fract]
    norm_num

/-- Witness for the amended C8 at `k = 3` and `q = 1/4`, `n = 0`. -/
theorem rounding_spec_witness :
    ((0 : ℤ) ≤ 3 ∧ (0 : ℚ) ≤ 1 / 4 ∧ Int.fract ((1 / 4 : ℚ) * 10 ^ 0) ≠ 1 / 2) ∧
    rounding ((3 : ℚ) + 1 / 2) 0 = (3 : ℚ) + 1 ∧
    rounding (1 / 4) 0 = ((round ((1 / 4 : ℚ) * 10 ^ 0) : ℤ) : ℚ) / 10 ^ 0 :=
  ⟨⟨by decide, by norm_num, by rw [pow_zero, mul_one, Int.fract]; norm_num⟩,
   rounding_spec.1 3 (by decide),
   rounding_spec.2 (1 / 4) 0 (by norm_num)
     (by rw [pow_zero, mul_one, Int.fract]; norm_num)⟩

/-- The `enumerate` scan of `rebuild_transform_to_target_crs` computes the
length of the longest accepted prefix, shifted by the start index. -/
theorem selectZoomAux_shift (sx : ℚ) : ∀ (l : List ℚ) (i : ℕ),
    selectZoomAux sx l (i + 1) i = i + (l.takeWhile (fun v => decide (v ≤ sx))).length := by
  intro l
  induction l with
  | nil => intro i; rfl
  | cons v rest ih =>
      intro i
      unfold selectZoomAux
      by_cases h : v ≤ sx
      · rw [if_pos h, ih (i + 1)]
        simp [List.takeWhile_cons, h]
        omega
      · rw [if_neg h]
        simp [List.takeWhile_cons, h]

/-- When the requested resolution is finer than the base resolution, the scan
breaks immediately and level 0 is selected. -/
theorem selectZoom_lt_head (v : ℚ) (rest : List ℚ) (sx : ℚ) (h : sx < v) :
    selectZoom (v :: rest) sx = 0 := by
  unfold selectZoom selectZoomAux
  rw [if_neg (not_le.2 h)]

/-- When the base resolution is accepted, the selected level is the length of
the longest prefix of coarser levels whose resolution does not exceed the
request. -/
theorem selectZoom_cons_le (v : ℚ) (rest : List ℚ) (sx : ℚ) (h : v ≤ sx) :
    selectZoom (v :: rest) sx = (rest.takeWhile (fun u => decide (u ≤ sx))).length := by
  unfold selectZoom selectZoomAux
  rw [if_pos h]
  have h2 := selectZoomAux_shift sx rest 0
  simpa using h2

/-- Bracketing property of the longest accepted prefix: its last element is
accepted and the following element, when present, is rejected. -/
theorem takeWhile_bracket (sx : ℚ) : ∀ (l : List ℚ) (v : ℚ), v ≤ sx →
    ((v :: l).getD ((l.takeWhile (fun u => decide (u ≤ sx))).length) 0 ≤ sx ∧
     ((l.takeWhile (fun u => decide (u ≤ sx))).length = l.length ∨
      sx < (v :: l).getD ((l.takeWhile (fun u => decide (u ≤ sx))).length + 1) 0)) := by
  intro l
  induction l with
  | nil => intro v hv; exact ⟨hv, Or.inl rfl⟩
  | cons w rest ih =>
      intro v hv
      by_cases hw : w ≤ sx
      · have h1 : ((w :: rest).takeWhile (fun u => decide (u ≤ sx))) =
            w :: rest.takeWhile (fun u => decide (u ≤ sx)) := by
          simp [List.takeWhile_cons, hw]
        rw [h1]
        simp only [List.length_cons]
        obtain ⟨ha, hb⟩ := ih w hw
        constructor
        · simpa using ha
        · rcases hb with hb | hb
          · left
            simp [hb]
          · right
            simpa using hb
      · have h1 : ((w :: rest).takeWhile (fun u => decide (u ≤ sx))) = [] := by
          simp [List.takeWhile_cons, hw]
        rw [h1]
        simp only [List.length_nil]
        refine ⟨by simpa using hv, Or.inr ?_⟩
        simpa using not_le.1 hw

/-- The `cur` values collected by the factors loop are strictly increasing
from any positive start. -/
theorem facLoopF_chain : ∀ (n : ℕ) (base : ℚ) (cur : ℤ), 0 < cur →
    List.Chain (· < ·) cur (facLoopF n base (cur * 2)) := by
  intro n
  induction n with
  | zero => intro base cur h; exact List.Chain.nil
  | succ m ih =>
      intro base cur h
      unfold facLoopF
      split_ifs with hb
      · exact List.Chain.cons (by linarith) (ih (base / 2) (cur * 2) (by linarith))
      · exact List.Chain.nil

/-- Scaling a strictly increasing integer chain by a positive rational
preserves strict increase. -/
theorem chain_mul_cast (sx : ℚ) (hsx : 0 < sx) : ∀ (l : List ℤ) (a : ℤ),
    List.Chain (· < ·) a l →
    List.Chain (· < ·) (sx * (a : ℚ)) (l.map (fun c => sx * (c : ℚ))) := by
  intro l
  induction l with
  | nil => intro a h; exact List.Chain.nil
  | cons b rest ih =>
      intro a h
      cases h with
      | cons hab hrest =>
          refine List.Chain.cons ?_ (ih b hrest)
          have hab2 : (a : ℚ) < (b : ℚ) := by exact_mod_cast hab
          exact mul_lt_mul_of_pos_left hab2 hsx

/-- The synthesised per-level scale list starting from a positive base
resolution is strictly increasing. -/
theorem chain_scaled (sx : ℚ) (hsx : 0 < sx) (n : ℕ) (base : ℚ) :
    List.Pairwise (· < ·) (sx :: (facLoopF n base 2).map (fun c => sx * (c : ℚ))) := by
  have hch : List.Chain (· < ·) 1 (facLoopF n base (1 * 2)) := facLoopF_chain n base 1 one_pos
  rw [one_mul] at hch
  have hch2 := chain_mul_cast sx hsx (facLoopF n base 2) 1 hch
  rw [show sx * ((1 : ℤ) : ℚ) = sx by norm_num] at hch2
  exact List.chain_iff_pairwise.1 hch2

/-- The shape of the constructor-synthesised `scalaXList`. -/
theorem mk_scalaXList_eq (t : Transform) (xS yS T : ℤ) (hp : Bool) :
    (mkGlobalTileInfo t xS yS T hp).scalaXList =
      t.c1 :: (if hp then
          facLoop ((max ((T : ℚ) * ((mkGlobalTileInfo t xS yS T hp).rangeX : ℚ))
            ((T : ℚ) * ((mkGlobalTileInfo t xS yS T hp).rangeY : ℚ))) / 2) 2
        else []).map (fun c => t.c1 * (c : ℚ)) := rfl

/-- With a positive native x resolution, the synthesised `scalaXList` is
strictly sorted. -/
theorem mk_scalaXList_sorted (t : Transform) (xS yS T : ℤ) (hp : Bool)
    (hsx : 0 < t.c1) :
    List.Pairwise (· < ·) (mkGlobalTileInfo t xS yS T hp).scalaXList := by
  rw [mk_scalaXList_eq]
  cases hp with
  | false => simp
  | true =>
      simp only [if_true]
      unfold facLoop
      exact chain_scaled t.c1 hsx _ _

/-- C3: for a window whose resolution or CRS differs from the native grid,
`rebuild_transform_to_target_crs` returns the largest pyramid level `z`
with `scale_x[z] <= sx'`, where `sx'` is the reprojected envelope width
divided by the requested pixel width: `scale_x[z] <= sx' < scale_x[z+1]`
or `z` is the maximum level; when `sx' < scale_x[0]`, level 0 is selected.
The level list is strictly sorted, so the bracket characterises the
largest such level. -/
theorem pyramid_level_selection (t0 : Transform) (xS yS T : ℤ) (hasPyr : Bool)
    (hsx : 0 < t0.c1) (t : Transform) (shape : ℤ × ℤ) (sameCrs : Bool)
    (envF : ℚ × ℚ × ℚ × ℚ → ℚ × ℚ × ℚ × ℚ)
    (hNot : ¬(t.c1 = t0.c1 ∧ t.c5 = t0.c5 ∧ sameCrs = true)) :
    List.Pairwise (· < ·) (mkGlobalTileInfo t0 xS yS T hasPyr).scalaXList ∧
    ((mkGlobalTileInfo t0 xS yS T hasPyr).scalaXList.getD 0 0 = t0.c1) ∧
    (let g := mkGlobalTileInfo t0 xS yS T hasPyr
     let env := envF (t.c0, t.c0 + (shape.2 : ℚ) * t.c1, t.c3 + (shape.1 : ℚ) * t.c5, t.c3)
     let sx := (env.2.1 - env.1) / (shape.2 : ℚ)
     let z := (rebuildTransform g t shape sameCrs envF).2.2.2
     z < g.scalaXList.length ∧
     (sx < t0.c1 → z = 0) ∧
     (t0.c1 ≤ sx →
       g.scalaXList.getD z 0 ≤ sx ∧
       (z + 1 = g.scalaXList.length ∨ sx < g.scalaXList.getD (z + 1) 0))) := by
  refine ⟨mk_scalaXList_sorted t0 xS yS T hasPyr hsx, rfl, ?_⟩
  intro g env sx z
  have hcond : ¬(t.c1 = g.scalaX ∧ t.c5 = g.scalaY ∧ sameCrs = true) := hNot
  have hz : z = selectZoom g.scalaXList sx := by
    show (rebuildTransform g t shape sameCrs envF).2.2.2 = _
    unfold rebuildTransform
    rw [if_neg hcond]
  obtain ⟨tl, htl⟩ : ∃ tl, g.scalaXList = t0.c1 :: tl := ⟨_, mk_scalaXList_eq t0 xS yS T hasPyr⟩
  by_cases hle : t0.c1 ≤ sx
  · have hzval : z = (tl.takeWhile (fun u => decide (u ≤ sx))).length := by
      rw [hz, htl, selectZoom_cons_le _ _ _ hle]
    obtain ⟨hA, hB⟩ := takeWhile_bracket sx tl t0.c1 hle
    have hlen : (tl.takeWhile (fun u => decide (u ≤ sx))).length ≤ tl.length :=
      (tl.takeWhile_sublist _).length_le
    refine ⟨?_, fun hlt => absurd hle (not_le.2 hlt), fun _ => ?_⟩
    · rw [hzval, htl]
      simp only [List.length_cons]
      omega
    · rw [hzval, htl]
      refine ⟨hA, ?_⟩
      rcases hB with hB | hB
      · left
        simp only [List.length_cons]
        omega
      · right
        exact hB
  · have hzval : z = 0 := by
      rw [hz, htl, selectZoom_lt_head _ _ _ (not_le.1 hle)]
    refine ⟨?_, fun _ => hzval, fun hge => absurd hge hle⟩
    rw [hzval, htl]
    simp

set_option maxRecDepth 8000 in
/-- Witness for C3: the E4 scenario — requesting resolution `3 * sx` over
the 2000 x 2000 dataset with levels `[30, 60, 120, 240]`. -/
theorem pyramid_level_selection_witness :
    ((0 : ℚ) < 30 ∧ ¬((90 : ℚ) = 30 ∧ (-90 : ℚ) = -30 ∧ true = true)) ∧
    (List.Pairwise (· < ·)
        (mkGlobalTileInfo ⟨12834619, 30, 0, 5011732, 0, -30⟩ 2000 2000 2048 true).scalaXList ∧
      ((mkGlobalTileInfo ⟨12834619, 30, 0, 5011732, 0, -30⟩ 2000 2000
          2048 true).scalaXList.getD 0 0 = 30) ∧
      (let g := mkGlobalTileInfo ⟨12834619, 30, 0, 5011732, 0, -30⟩ 2000 2000 2048 true
       let env := (fun e => e) ((12834619 : ℚ), (12834619 : ℚ) + ((2000 : ℤ) : ℚ) * 90,
         (5011732 : ℚ) + ((2000 : ℤ) : ℚ) * (-90), (5011732 : ℚ))
       let sx := (env.2.1 - env.1) / ((2000 : ℤ) : ℚ)
       let z := (rebuildTransform g ⟨12834619, 90, 0, 5011732, 0, -90⟩
         ((2000 : ℤ), (2000 : ℤ)) true (fun e => e)).2.2.2
       z < g.scalaXList.length ∧
       (sx < 30 → z = 0) ∧
       ((30 : ℚ) ≤ sx →
         g.scalaXList.getD z 0 ≤ sx ∧
         (z + 1 = g.scalaXList.length ∨ sx < g.scalaXList.getD (z + 1) 0)))) :=
  ⟨⟨by norm_num, by norm_num⟩,
   pyramid_level_selection ⟨12834619, 30, 0, 5011732, 0, -30⟩ 2000 2000 2048 true
     (by norm_num) ⟨12834619, 90, 0, 5011732, 0, -90⟩ (2000, 2000) true (fun e => e)
     (by norm_num)⟩

/-- Accounted size of a cons. -/
theorem sumSizes_cons (e : ℕ × ℕ) (l : List (ℕ × ℕ)) :
    sumSizes (e :: l) = (e.2 : ℤ) + sumSizes l := by
  simp [sumSizes]

/-- Accounted size after appending one entry. -/
theorem sumSizes_append_single (l : List (ℕ × ℕ)) (e : ℕ × ℕ) :
    sumSizes (l ++ [e]) = sumSizes l + (e.2 : ℤ) := by
  simp [sumSizes]

/-- Deleting the found entry for a key removes exactly its accounted size;
when the key is absent the entry list is untouched. -/
theorem eraseP_sum (k : ℕ) : ∀ (l : List (ℕ × ℕ)),
    (∀ e, l.find? (fun e2 => decide (e2.1 = k)) = some e →
      sumSizes (l.eraseP (fun e2 => decide (e2.1 = k))) = sumSizes l - (e.2 : ℤ)) ∧
    (l.find? (fun e2 => decide (e2.1 = k)) = Option.none →
      l.eraseP (fun e2 => decide (e2.1 = k)) = l) := by
  intro l
  induction l with
  | nil => exact ⟨fun e he => by simp at he, fun _ => rfl⟩
  | cons a rest ih =>
      by_cases ha : a.1 = k
      · constructor
        · intro e he
          rw [List.find?_cons_of_pos _ (by simpa using ha)] at he
          rw [List.eraseP_cons_of_pos (by simpa using ha)]
          cases he
          rw [sumSizes_cons]
          ring
        · intro hn
          rw [List.find?_cons_of_pos _ (by simpa using ha)] at hn
          cases hn
      · constructor
        · intro e he
          rw [List.find?_cons_of_neg _ (by simpa using ha)] at he
          rw [List.eraseP_cons_of_neg (by simpa using ha), sumSizes_cons,
            sumSizes_cons, ih.1 e he]
          ring
        · intro hn
          rw [List.find?_cons_of_neg _ (by simpa using ha)] at hn
          rw [List.eraseP_cons_of_neg (by simpa using ha), ih.2 hn]

/-- `Cache._delete` preserves the accounting invariant and the capacity. -/
theorem cacheDelete_inv (s : CacheState) (k : ℕ) (h : CacheInv s) :
    CacheInv (cacheDelete s k) ∧ (cacheDelete s k).maxsize = s.maxsize := by
  obtain ⟨hacc, hfree⟩ := h
  unfold cacheDelete
  cases hfind : s.entries.find? (fun e2 => decide (e2.1 = k)) with
  | none => exact ⟨⟨hacc, hfree⟩, rfl⟩
  | some e =>
      have hsum := (eraseP_sum k s.entries).1 e hfind
      have he2 : (0 : ℤ) ≤ (e.2 : ℤ) := Int.natCast_nonneg _
      refine ⟨⟨?_, ?_⟩, rfl⟩
      · show s.freeSize + (e.2 : ℤ) = s.maxsize - sumSizes (s.entries.eraseP _)
        rw [hsum]
        unfold totalSize at hacc
        linarith
      · show 0 ≤ s.freeSize + (e.2 : ℤ)
        linarith

/-- A fold of deletions preserves the accounting invariant and capacity. -/
theorem foldl_delete_inv (ks : List (ℕ × ℤ)) : ∀ s : CacheState, CacheInv s →
    CacheInv (ks.foldl (fun acc e => cacheDelete acc e.1) s) ∧
    (ks.foldl (fun acc e => cacheDelete acc e.1) s).maxsize = s.maxsize := by
  induction ks with
  | nil => intro s h; exact ⟨h, rfl⟩
  | cons e rest ih =>
      intro s h
      have h1 := cacheDelete_inv s e.1 h
      have h2 := ih (cacheDelete s e.1) h1.1
      exact ⟨h2.1, h2.2.trans h1.2⟩

/-- `Cache._delete_expired` preserves the accounting invariant and capacity. -/
theorem cacheDeleteExpired_inv (s : CacheState) (now : ℤ) (h : CacheInv s) :
    CacheInv (cacheDeleteExpired s now) ∧ (cacheDeleteExpired s now).maxsize = s.maxsize :=
  foldl_delete_inv _ s h

/-- The eviction loop removes a prefix of the insertion-ordered entries:
what remains is a suffix, so eviction is oldest-insertion-first. -/
theorem evictLoop_suffix : ∀ (l : List (ℕ × ℕ)) (free lack : ℤ),
    List.IsSuffix (evictLoop l free lack).1 l := by
  intro l
  induction l with
  | nil =>
      intro free lack
      unfold evictLoop
      split_ifs <;> exact List.suffix_refl _
  | cons e rest ih =>
      intro free lack
      unfold evictLoop
      split_ifs with h0
      · exact List.suffix_refl _
      · exact (ih (free + (e.2 : ℤ)) (lack + (e.2 : ℤ))).trans (List.suffix_cons e rest)

/-- The eviction loop keeps the accounting exact, never decreases the free
space, and stops only once the requested size fits or the cache is empty. -/
theorem evictLoop_spec : ∀ (l : List (ℕ × ℕ)) (free lack M d : ℤ),
    free = M - sumSizes l → lack = free - d →
    ((evictLoop l free lack).2 = M - sumSizes (evictLoop l free lack).1 ∧
     free ≤ (evictLoop l free lack).2 ∧
     (d ≤ (evictLoop l free lack).2 ∨ (evictLoop l free lack).1 = [])) := by
  intro l
  induction l with
  | nil =>
      intro free lack M d hacc hlack
      unfold evictLoop
      split_ifs with h0
      · exact ⟨hacc, le_refl _, Or.inl (by omega)⟩
      · exact ⟨hacc, le_refl _, Or.inr rfl⟩
  | cons e rest ih =>
      intro free lack M d hacc hlack
      unfold evictLoop
      split_ifs with h0
      · exact ⟨hacc, le_refl _, Or.inl (by omega)⟩
      · rw [sumSizes_cons] at hacc
        have he2 : (0 : ℤ) ≤ (e.2 : ℤ) := Int.natCast_nonneg _
        have h3 := ih (free + (e.2 : ℤ)) (lack + (e.2 : ℤ)) M d (by linarith) (by linarith)
        exact ⟨h3.1, by linarith [h3.2.1], h3.2.2⟩

/-- `Cache._evict` preserves the invariant and capacity, and frees enough
room for any request within capacity. -/
theorem cacheEvict_inv (s : CacheState) (d : ℤ) (h : CacheInv s) :
    CacheInv (cacheEvict s d) ∧ (cacheEvict s d).maxsize = s.maxsize ∧
    (d ≤ s.maxsize → d ≤ (cacheEvict s d).freeSize) := by
  obtain ⟨hacc, hfree⟩ := h
  unfold cacheEvict
  split_ifs with hc
  · have hs := evictLoop_spec s.entries s.freeSize (s.freeSize - d) s.maxsize d hacc rfl
    refine ⟨⟨hs.1, by linarith [hs.2.1]⟩, rfl, ?_⟩
    intro hdm
    show d ≤ (evictLoop s.entries s.freeSize (s.freeSize - d)).2
    rcases hs.2.2 with hd | hempty
    · exact hd
    · have hz : sumSizes (evictLoop s.entries s.freeSize (s.freeSize - d)).1 = 0 := by
        rw [hempty]
        rfl
      have := hs.1
      rw [hz] at this
      omega
  · exact ⟨⟨hacc, hfree⟩, rfl, fun _ => by omega⟩

/-- Inserting an entry that fits in the free space preserves the invariant. -/
theorem insert_step_inv (x : CacheState) (k sz : ℕ) (texp : ℤ)
    (hx : CacheInv x) (hfits : (sz : ℤ) ≤ x.freeSize) :
    CacheInv { x with
      entries := x.entries ++ [(k, sz)]
      freeSize := x.freeSize - (sz : ℤ)
      expire := x.expire.eraseP (fun e2 => decide (e2.1 = k)) ++ [(k, texp)] } := by
  obtain ⟨hacc, hfree⟩ := hx
  unfold totalSize at hacc
  constructor
  · show x.freeSize - (sz : ℤ) = x.maxsize - sumSizes (x.entries ++ [(k, sz)])
    rw [sumSizes_append_single]
    linarith
  · show 0 ≤ x.freeSize - (sz : ℤ)
    linarith

/-- `Cache._set` preserves the accounting invariant and the capacity
(including its oversize `ValueError` branch). -/
theorem cacheSet_inv (s : CacheState) (now : ℤ) (k sz : ℕ) (expire : Option ℤ)
    (h : CacheInv s) :
    CacheInv (cacheSet s now k sz expire) ∧
    (cacheSet s now k sz expire).maxsize = s.maxsize := by
  have h1 := cacheDeleteExpired_inv s now h
  simp only [cacheSet]
  split_ifs with hover hmem
  · exact h1
  · have h2 := cacheDelete_inv (cacheDeleteExpired s now) k h1.1
    have h3 := cacheEvict_inv (cacheDelete (cacheDeleteExpired s now) k) (sz : ℤ) h2.1
    have hszle : (sz : ℤ) ≤ (cacheDelete (cacheDeleteExpired s now) k).maxsize := by
      rw [h2.2]
      exact not_lt.1 hover
    have h4 := insert_step_inv (cacheEvict (cacheDelete (cacheDeleteExpired s now) k) (sz : ℤ))
      k sz (now + expire.getD s.defaultExpire) h3.1 (h3.2.2 hszle)
    refine ⟨h4, ?_⟩
    show (cacheEvict (cacheDelete (cacheDeleteExpired s now) k) (sz : ℤ)).maxsize = s.maxsize
    rw [h3.2.1, h2.2, h1.2]
  · have h3 := cacheEvict_inv (cacheDeleteExpired s now) (sz : ℤ) h1.1
    have hszle : (sz : ℤ) ≤ (cacheDeleteExpired s now).maxsize := not_lt.1 hover
    have h4 := insert_step_inv (cacheEvict (cacheDeleteExpired s now) (sz : ℤ))
      k sz (now + expire.getD s.defaultExpire) h3.1 (h3.2.2 hszle)
    refine ⟨h4, ?_⟩
    show (cacheEvict (cacheDeleteExpired s now) (sz : ℤ)).maxsize = s.maxsize
    rw [h3.2.1, h1.2]

/-- `Cache._get` preserves the accounting invariant and the capacity. -/
theorem cacheGet_inv (s : CacheState) (now : ℤ) (k : ℕ) (h : CacheInv s) :
    CacheInv (cacheGet s now k) ∧ (cacheGet s now k).maxsize = s.maxsize := by
  unfold cacheGet
  cases hf : s.entries.find? (fun e2 => decide (e2.1 = k)) with
  | none => exact ⟨h, rfl⟩
  | some e =>
      cases hf2 : s.expire.find? (fun e2 => decide (e2.1 = k)) with
      | none => exact ⟨h, rfl⟩
      | some e2 =>
          dsimp only
          split_ifs with hle
          · exact cacheDelete_inv s k h
          · exact ⟨h, rfl⟩

/-- Every public cache operation preserves the invariant and capacity. -/
theorem cacheStep_inv (s : CacheState) (op : CacheOp) (h : CacheInv s) :
    CacheInv (cacheStep s op) ∧ (cacheStep s op).maxsize = s.maxsize := by
  cases op with
  | set now k sz expire => exact cacheSet_inv s now k sz expire h
  | get now k => exact cacheGet_inv s now k h
  | del k => exact cacheDelete_inv s k h
  | delExpired now => exact cacheDeleteExpired_inv s now h

/-- Any sequence of cache operations preserves the invariant and capacity. -/
theorem cacheRun_inv (ops : List CacheOp) : ∀ s : CacheState, CacheInv s →
    CacheInv (cacheRun s ops) ∧ (cacheRun s ops).maxsize = s.maxsize := by
  induction ops with
  | nil => intro s h; exact ⟨h, rfl⟩
  | cons op rest ih =>
      intro s h
      have h1 := cacheStep_inv s op h
      have h2 := ih (cacheStep s op) h1.1
      exact ⟨h2.1, h2.2.trans h1.2⟩

/-- C9: after every sequence of set/get/delete/delete_expired operations on
a fresh cache, the accounted total size is at most `maxsize` and
`freeSize` stays nonnegative; eviction removes entries
oldest-insertion-first (the survivors are a suffix of the insertion
order) and continues until the new value fits within capacity. -/
theorem cache_capacity_invariant :
    (∀ (maxsize defaultExpire : ℤ) (ops : List CacheOp), 0 < maxsize →
        totalSize (cacheRun (initCache maxsize defaultExpire) ops) ≤ maxsize ∧
        0 ≤ (cacheRun (initCache maxsize defaultExpire) ops).freeSize) ∧
    (∀ (l : List (ℕ × ℕ)) (free lack : ℤ),
        List.IsSuffix (evictLoop l free lack).1 l) ∧
    (∀ (s : CacheState) (d : ℤ), CacheInv s → d ≤ s.maxsize →
        d ≤ (cacheEvict s d).freeSize) := by
  refine ⟨?_, evictLoop_suffix, ?_⟩
  · intro maxsize defaultExpire ops hpos
    have hinit : CacheInv (initCache maxsize defaultExpire) := by
      constructor
      · show maxsize = maxsize - sumSizes []
        simp [sumSizes]
      · show (0 : ℤ) ≤ maxsize
        omega
    have h1 := cacheRun_inv ops (initCache maxsize defaultExpire) hinit
    obtain ⟨⟨hacc, hfree⟩, hmax⟩ := h1
    have hmax2 : (cacheRun (initCache maxsize defaultExpire) ops).maxsize = maxsize := hmax
    constructor
    · rw [hmax2] at hacc
      linarith
    · exact hfree
  · intro s d h hdm
    exact (cacheEvict_inv s d h).2.2 hdm

/-- Witness for C9: a concrete five-operation run within a capacity of 100,
with an eviction triggered by the second set. -/
theorem cache_capacity_invariant_witness :
    (0 : ℤ) < 100 ∧
    (totalSize (cacheRun (initCache 100 10)
        [CacheOp.set 0 1 60 Option.none, CacheOp.set 1 2 60 Option.none,
         CacheOp.get 2 1, CacheOp.del 2, CacheOp.delExpired 100]) ≤ 100 ∧
      0 ≤ (cacheRun (initCache 100 10)
        [CacheOp.set 0 1 60 Option.none, CacheOp.set 1 2 60 Option.none,
         CacheOp.get 2 1, CacheOp.del 2, CacheOp.delExpired 100]).freeSize) :=
  ⟨by decide,
   cache_capacity_invariant.1 100 10
     [CacheOp.set 0 1 60 Option.none, CacheOp.set 1 2 60 Option.none,
      CacheOp.get 2 1, CacheOp.del 2, CacheOp.delExpired 100] (by decide)⟩

end EdmStore
